import Mathlib

/-!
Verification of the paginated log fetcher and per-signal series builder of
`tick.py` (tuya_graphing).  The Python source is shallowly embedded: the
recursive generator `_get_logs` becomes a fuelled recursive function that
also records the cursor parameter of every request it issues; the series
reshaping loop of `main` becomes an explicit fold over the device status
list; `to_api` becomes a function on a sum type of Python date-like values.
-/

namespace Tick

/-- One telemetry sample: signal code, timestamp (an abstract instant,
modelled as an integer), and wire-level value (modelled as the string the
vendor sends). Mirrors the pydantic `Event` model. -/
structure Event where
  code : String
  event_time : Int
  value : String
deriving DecidableEq, Repr

/-- One vendor response for the report-logs endpoint, flattening the
`{result: {list, has_more, last_row_key}, success, msg}` shape used by
`_get_logs`. -/
structure Page where
  success : Bool
  msg : String
  has_more : Bool
  last_row_key : Option String
  events : List Event
deriving DecidableEq, Repr

/-- Python truthiness test `if last_row_key:` applied to an
`Optional[str]`: the cursor parameter is included in the request only when
the key is present and non-empty. -/
def nextCursor : Option String → Option String
  | none => none
  | some s => if s = "" then none else some s

/-- Outcome of running the fetcher: the full event list on success, the
vendor `msg` when an `assert res["success"]` fails, or fuel exhaustion
(the Python recursion has no such bound; fuel is an artifact of the
embedding and the theorems show the result is fuel-independent). -/
inductive Outcome where
  | ok (events : List Event)
  | fail (msg : String)
  | fuelOut
deriving DecidableEq, Repr

/-- A run of the fetcher: the cursor parameter of every request issued, in
order (`none` = no `last_row_key` parameter), and the outcome. -/
structure Trace where
  requests : List (Option String)
  outcome : Outcome
deriving DecidableEq, Repr

/-- Embedding of `_get_logs`: the vendor is a function from the cursor
parameter of a request to the page it returns (device id, codes and time
range are fixed throughout one fetch, as in the source).  `lrk` is the
`last_row_key` argument of the Python function; the request itself carries
`nextCursor lrk`.  On `success` the page's events are yielded and, when
`has_more`, the fetch recurses with the response's `last_row_key`. -/
def getLogsAux (vendor : Option String → Page) : Nat → Option String → Trace
  | 0, _ => ⟨[], Outcome.fuelOut⟩
  | fuel + 1, lrk =>
    let p := vendor (nextCursor lrk)
    if p.success then
      if p.has_more then
        let t := getLogsAux vendor fuel p.last_row_key
        ⟨nextCursor lrk :: t.requests,
          match t.outcome with
          | Outcome.ok evs => Outcome.ok (p.events ++ evs)
          | o => o⟩
      else ⟨[nextCursor lrk], Outcome.ok p.events⟩
    else ⟨[nextCursor lrk], Outcome.fail p.msg⟩

/-- Embedding of `get_logs`: `list(_get_logs(...))`, started with the
default `last_row_key=None`. -/
def get_logs (vendor : Option String → Page) (fuel : Nat) : Trace :=
  getLogsAux vendor fuel none

/-- The cursor of the request issued at step `i` of a fetch started with
`last_row_key` argument `lrk`: step 0 sends `nextCursor lrk`, step `i+1`
follows the `last_row_key` returned at step `i`. -/
def chainFrom (vendor : Option String → Page) (lrk : Option String) : Nat → Option String
  | 0 => nextCursor lrk
  | n + 1 => chainFrom vendor (vendor (nextCursor lrk)).last_row_key n

/-- Concatenation of the event lists of pages 0..n of the cursor chain
starting at `lrk`, in arrival order. -/
def expectedEvents (vendor : Option String → Page) (lrk : Option String) : Nat → List Event
  | 0 => (vendor (nextCursor lrk)).events
  | n + 1 =>
    (vendor (nextCursor lrk)).events ++
      expectedEvents vendor (vendor (nextCursor lrk)).last_row_key n

/-- The cursors of requests 0..n of the chain starting at `lrk`. -/
def expectedReqs (vendor : Option String → Page) (lrk : Option String) : Nat → List (Option String)
  | 0 => [nextCursor lrk]
  | n + 1 =>
    nextCursor lrk :: expectedReqs vendor (vendor (nextCursor lrk)).last_row_key n

/-- Typed value of a coerced series entry: after the series builder runs,
every value is either a boolean or an integer. -/
inductive TypedValue where
  | bool (b : Bool)
  | int (n : Int)
deriving DecidableEq, Repr

/-- Digit-string to number, `none` when empty or not all digits. -/
def parseDigits (cs : List Char) : Option Nat :=
  if cs ≠ [] ∧ cs.all (fun c => c.isDigit) then
    some (cs.foldl (fun acc c => acc * 10 + (c.toNat - 48)) 0)
  else none

/-- Python `int(s)` on a string: an optional sign followed by at least one
digit (CPython's tolerance for surrounding whitespace and underscores is
not modelled); `none` models a raised `ValueError`. -/
def pyInt (s : String) : Option Int :=
  match s.toList with
  | '-' :: cs => (parseDigits cs).map (fun n => -(n : Int))
  | '+' :: cs => (parseDigits cs).map (fun n => (n : Int))
  | cs => (parseDigits cs).map (fun n => (n : Int))

/-- The list comprehension `[int(v) for v in values]`: every value through
`int(v)`, `none` when any raises `ValueError`. -/
def coerceInts : List String → Option (List TypedValue)
  | [] => some []
  | v :: rest =>
    match pyInt v, coerceInts rest with
    | some n, some out => some (TypedValue.int n :: out)
    | _, _ => none

/-- Lines 143-146 of `tick.py`: if any value equals `"true"` or `"false"`
the whole series becomes boolean via `v == "true"`; otherwise every value
goes through `int(v)`, with `none` modelling the uncaught `ValueError`. -/
def coerceValues (values : List String) : Option (List TypedValue) :=
  if values.any (fun v => v == "true" || v == "false") then
    some (values.map (fun v => TypedValue.bool (v == "true")))
  else
    coerceInts values

/-- A timestamp rendered in the fixed Australia/Perth display timezone:
`astimezone(PERTH)` changes the representation, not the instant, so the
model keeps the instant and tags the conversion. -/
structure PerthTime where
  instant : Int
deriving DecidableEq, Repr

/-- `point.event_time.astimezone(PERTH)` (line 149). -/
def toPerth (t : Int) : PerthTime := ⟨t⟩

/-- A (code, current value) pair of a device, mirroring the pydantic
`Status` model; only the code is consulted. -/
structure Status where
  code : String
  value : String
deriving DecidableEq, Repr

/-- A device, mirroring the pydantic `Device` model. -/
structure Device where
  id : String
  name : String
  product_name : String
  model : String
  status : List Status
deriving DecidableEq, Repr

/-- The fixed deny-list `{"switch_1", "countdown_1", "switch"}` of
line 136. -/
def codesToSkip : List String := ["switch_1", "countdown_1", "switch"]

/-- State of the series loop of `main`: the insertion-ordered dict `y`
mapping a code to its coerced values, and the variable `index`, which is
reassigned on every kept code and therefore ends as the timestamps of the
last kept code only (`none` while unassigned). -/
structure SeriesState where
  y : List (String × List TypedValue)
  index : Option (List PerthTime)
deriving DecidableEq, Repr

/-- Python dict assignment `y[code] = values`: overwrite in place when the
key exists, append otherwise. -/
def updateAssoc (y : List (String × List TypedValue)) (k : String) (v : List TypedValue) :
    List (String × List TypedValue) :=
  if y.any (fun p => p.1 == k) then
    y.map (fun p => if p.1 == k then (k, v) else p)
  else y ++ [(k, v)]

/-- The series loop of `main` (lines 134-149), one iteration per status:
skip deny-listed codes, filter the matching points, skip codes with no
points, coerce the values (a `ValueError` aborts the run: `none`), store
the values under the code and overwrite `index` with the points'
Perth-converted timestamps. -/
def buildSeriesAux (res : List Event) : List Status → SeriesState → Option SeriesState
  | [], st => some st
  | status :: rest, st =>
    if status.code ∈ codesToSkip then buildSeriesAux res rest st
    else if (res.filter (fun point => point.code == status.code)).isEmpty then
      buildSeriesAux res rest st
    else
      match coerceValues ((res.filter (fun point => point.code == status.code)).map
          (fun point => point.value)) with
      | none => none
      | some values =>
        buildSeriesAux res rest
          ⟨updateAssoc st.y status.code values,
            some ((res.filter (fun point => point.code == status.code)).map
              (fun point => toPerth point.event_time))⟩

/-- The series loop started from the empty dict with `index` unassigned. -/
def buildSeries (res : List Event) (statuses : List Status) : Option SeriesState :=
  buildSeriesAux res statuses ⟨[], none⟩

/-- A Python argument of `to_api`: a `datetime` carries its epoch
timestamp in whole seconds; a `date` carries year, month and day; `other`
is any value of another type. -/
inductive PyTimeVal where
  | datetime (epochSeconds : Int)
  | date (year month day : Nat)
  | other
deriving DecidableEq, Repr

/-- `to_api` (lines 17-23): a datetime maps to `int(t.timestamp() * 1000)`
(epoch milliseconds); a date goes through `datetime(t.year, t.month,
t.day)`, whose epoch seconds are supplied by the environment's
calendar/timezone function `midnight`; any other value raises
`NotImplementedError`, modelled as `none`. -/
def to_api (midnight : Nat → Nat → Nat → Int) : PyTimeVal → Option Int
  | PyTimeVal.datetime s => some (s * 1000)
  | PyTimeVal.date y m d => some (midnight y m d * 1000)
  | PyTimeVal.other => none

/-- The query parameters of one report-logs request. -/
structure Params where
  codes : String
  start_time : Int
  end_time : Int
  last_row_key : Option String
deriving DecidableEq, Repr

/-- The `params` dict built at lines 85-91: codes comma-joined, both times
through `to_api`, and the `last_row_key` entry only when truthy. -/
def mkParams (midnight : Nat → Nat → Nat → Int) (codes : List String)
    (start_time end_time : PyTimeVal) (lrk : Option String) : Option Params :=
  match to_api midnight start_time, to_api midnight end_time with
  | some s, some e => some ⟨String.intercalate "," codes, s, e, nextCursor lrk⟩
  | _, _ => none

/-- The device loop of `main` (lines 120-132): a device with an empty
status list is skipped; otherwise its logs are fetched (the fetch
abstracted as a function of device id and code list) and stored in `data`
under the device name.  The second component records the device ids a
fetch was issued for, in order. -/
def processDevices (fetch : String → List String → List Event) :
    List Device → List (String × List Event) × List String
  | [] => ([], [])
  | device :: rest =>
    if device.status.isEmpty then processDevices fetch rest
    else
      ((device.name, fetch device.id (device.status.map (fun s => s.code))) ::
          (processDevices fetch rest).1,
        device.id :: (processDevices fetch rest).2)

/-- First page of the two-page pagination scenario: `has_more` with cursor
`"abc"`. -/
def scenarioPage1 : Page :=
  ⟨true, "", true, some "abc", [⟨"temp", 1, "23"⟩]⟩

/-- Second page of the scenario: fetched with cursor `"abc"`, no more
data. -/
def scenarioPage2 : Page :=
  ⟨true, "", false, none, [⟨"temp", 2, "25"⟩]⟩

/-- Vendor of the two-page scenario: cursor `"abc"` returns page 2, the
initial cursor-less request returns page 1. -/
def scenarioVendor : Option String → Page :=
  fun c => if c = some "abc" then scenarioPage2 else scenarioPage1

/-- A vendor whose response reports `success: false`. -/
def failVendor : Option String → Page :=
  fun _ => ⟨false, "token invalid", false, none, []⟩

/-- A vendor that reports `has_more` with an empty `last_row_key`. -/
def emptyCursorVendor : Option String → Page :=
  fun _ => ⟨true, "", true, some "", [⟨"temp", 3, "7"⟩]⟩

theorem expectedReqs_length (vendor : Option String → Page) (lrk : Option String) :
    ∀ n, (expectedReqs vendor lrk n).length = n + 1 := by
  intro n
  induction n generalizing lrk with
  | zero => rfl
  | succ n ih => simp [expectedReqs, ih]

/-- Main characterization of a fetch that terminates: if every page along
the cursor chain up to step `n` succeeds, pages before `n` report
`has_more` and page `n` does not, then with any fuel above `n` the fetch
issues exactly the chain's requests and returns the concatenation of all
pages' events. -/
theorem getLogsAux_run (vendor : Option String → Page) :
    ∀ (n : Nat) (lrk : Option String) (fuel : Nat),
      n < fuel →
      (∀ i, i ≤ n → (vendor (chainFrom vendor lrk i)).success = true) →
      (∀ i, i < n → (vendor (chainFrom vendor lrk i)).has_more = true) →
      (vendor (chainFrom vendor lrk n)).has_more = false →
      getLogsAux vendor fuel lrk =
        ⟨expectedReqs vendor lrk n, Outcome.ok (expectedEvents vendor lrk n)⟩ := by
  intro n
  induction n with
  | zero =>
    intro lrk fuel hfuel hsucc _ hstop
    match fuel, hfuel with
    | fuel + 1, _ =>
      have hs := hsucc 0 (Nat.le_refl 0)
      simp only [chainFrom] at hs hstop
      simp [getLogsAux, hs, hstop, expectedReqs, expectedEvents]
  | succ n ih =>
    intro lrk fuel hfuel hsucc hmore hstop
    match fuel, hfuel with
    | fuel + 1, hfuel =>
      have hs0 := hsucc 0 (Nat.zero_le _)
      have hm0 := hmore 0 (Nat.succ_pos n)
      simp only [chainFrom] at hs0 hm0
      have hrec :=
        ih (vendor (nextCursor lrk)).last_row_key fuel
          (Nat.lt_of_succ_lt_succ hfuel)
          (fun i hi => hsucc (i + 1) (Nat.succ_le_succ hi))
          (fun i hi => hmore (i + 1) (Nat.succ_lt_succ hi))
          hstop
      simp [getLogsAux, hs0, hm0, hrec, expectedReqs, expectedEvents]

/-- A failing outcome can only originate from a response whose `success`
field is false; the vendor's `msg` is carried along unchanged. -/
theorem getLogsAux_fail_source (vendor : Option String → Page) :
    ∀ (fuel : Nat) (lrk : Option String) (m : String),
      (getLogsAux vendor fuel lrk).outcome = Outcome.fail m →
      ∃ c ∈ (getLogsAux vendor fuel lrk).requests,
        (vendor c).success = false ∧ (vendor c).msg = m := by
  intro fuel
  induction fuel with
  | zero =>
    intro lrk m h
    simp [getLogsAux] at h
  | succ fuel ih =>
    intro lrk m h
    by_cases hs : (vendor (nextCursor lrk)).success = true
    · by_cases hm : (vendor (nextCursor lrk)).has_more = true
      · rcases ho : (getLogsAux vendor fuel (vendor (nextCursor lrk)).last_row_key).outcome with
          evs | m' | _
        · simp [getLogsAux, hs, hm, ho] at h
        · have hm' : m' = m := by
            have := h
            simp only [getLogsAux, hs, hm, if_true] at this
            simpa [ho] using this
          subst hm'
          obtain ⟨c, hc, hprop⟩ := ih (vendor (nextCursor lrk)).last_row_key m' ho
          refine ⟨c, ?_, hprop⟩
          simp only [getLogsAux, hs, hm, if_true]
          exact List.mem_cons_of_mem _ hc
        · simp [getLogsAux, hs, hm, ho] at h
      · simp [getLogsAux, hs, hm] at h
    · have hs' : (vendor (nextCursor lrk)).success = false := by
        simpa using hs
      have hmsg : (vendor (nextCursor lrk)).msg = m := by
        simpa [getLogsAux, hs'] using h
      exact ⟨nextCursor lrk, by simp [getLogsAux, hs'], hs', hmsg⟩

/-- With at least one unit of fuel, the first request issued carries
exactly `nextCursor lrk`. -/
theorem getLogsAux_requests_head (vendor : Option String → Page) (fuel : Nat)
    (lrk : Option String) :
    ∃ rest, (getLogsAux vendor (fuel + 1) lrk).requests = nextCursor lrk :: rest := by
  by_cases hs : (vendor (nextCursor lrk)).success = true
  · by_cases hm : (vendor (nextCursor lrk)).has_more = true
    · refine ⟨(getLogsAux vendor fuel (vendor (nextCursor lrk)).last_row_key).requests, ?_⟩
      simp [getLogsAux, hs, hm]
    · exact ⟨[], by simp [getLogsAux, hs, hm]⟩
  · exact ⟨[], by simp [getLogsAux, hs]⟩

/-- The initial call carries no cursor parameter. -/
theorem nextCursor_none : nextCursor none = none := rfl

/-- C1: for every sequence of pages returned by the vendor, the log fetch
returns exactly the concatenation of the pages' event lists in arrival
order, following `last_row_key` cursors while `has_more` holds, and issues
exactly one request per page (so in the two-page scenario no third request
is issued). -/
theorem fetch_concatenates_pages (vendor : Option String → Page) (n fuel : Nat)
    (hfuel : n < fuel)
    (hsucc : ∀ i, i ≤ n → (vendor (chainFrom vendor none i)).success = true)
    (hmore : ∀ i, i < n → (vendor (chainFrom vendor none i)).has_more = true)
    (hstop : (vendor (chainFrom vendor none n)).has_more = false) :
    get_logs vendor fuel =
      ⟨expectedReqs vendor none n, Outcome.ok (expectedEvents vendor none n)⟩ ∧
    (expectedReqs vendor none n).length = n + 1 := by
  exact ⟨getLogsAux_run vendor n none fuel hfuel hsucc hmore hstop,
    expectedReqs_length vendor none n⟩

/-- Witness for C1 at the spec scenario: page 1 has `has_more` and cursor
`"abc"`, page 2 has not; the fetch returns page1.events ++ page2.events
and issues exactly the two requests. -/
theorem fetch_concatenates_pages_witness :
    get_logs scenarioVendor 5 =
      ⟨[none, some "abc"],
        Outcome.ok [⟨"temp", 1, "23"⟩, ⟨"temp", 2, "25"⟩]⟩ := by
  have h := fetch_concatenates_pages scenarioVendor 1 5 (by decide)
    (fun i hi => by interval_cases i <;> decide)
    (fun i hi => by interval_cases i <;> decide)
    (by decide)
  exact h.1.trans (by decide)

/-- C5: whenever some page along the cursor chain eventually reports
`has_more` false (all pages succeeding), the fetch terminates with a
finite event list, issues exactly one request per page, and its result
does not depend on the fuel bound — the recursion is bounded only by the
vendor-side flag. -/
theorem fetch_terminates (vendor : Option String → Page) (n fuel₁ fuel₂ : Nat)
    (hfuel₁ : n < fuel₁) (hfuel₂ : n < fuel₂)
    (hsucc : ∀ i, i ≤ n → (vendor (chainFrom vendor none i)).success = true)
    (hmore : ∀ i, i < n → (vendor (chainFrom vendor none i)).has_more = true)
    (hstop : (vendor (chainFrom vendor none n)).has_more = false) :
    (get_logs vendor fuel₁).outcome = Outcome.ok (expectedEvents vendor none n) ∧
    (get_logs vendor fuel₁).requests.length = n + 1 ∧
    get_logs vendor fuel₁ = get_logs vendor fuel₂ := by
  have h₁ := getLogsAux_run vendor n none fuel₁ hfuel₁ hsucc hmore hstop
  have h₂ := getLogsAux_run vendor n none fuel₂ hfuel₂ hsucc hmore hstop
  refine ⟨by simp [get_logs, h₁], ?_, by simp [get_logs, h₁, h₂]⟩
  simp [get_logs, h₁, expectedReqs_length]

/-- Witness for C5 at the two-page scenario, with two different fuel
bounds. -/
theorem fetch_terminates_witness :
    (get_logs scenarioVendor 5).outcome =
      Outcome.ok [⟨"temp", 1, "23"⟩, ⟨"temp", 2, "25"⟩] ∧
    (get_logs scenarioVendor 5).requests.length = 2 ∧
    get_logs scenarioVendor 5 = get_logs scenarioVendor 9 := by
  have h := fetch_terminates scenarioVendor 1 5 9 (by decide) (by decide)
    (fun i hi => by interval_cases i <;> decide)
    (fun i hi => by interval_cases i <;> decide)
    (by decide)
  exact ⟨h.1.trans (by decide), h.2.1, h.2.2⟩

/-- C4: a response with `success` false makes the fetch fail with the
vendor's `msg`, yielding no events and issuing no further request;
conversely a failure outcome can only be caused by some issued request
whose response had `success` false, so success-only responses never raise
it. -/
theorem fetch_fail_semantics (vendor : Option String → Page) (lrk : Option String)
    (fuel : Nat) :
    ((vendor (nextCursor lrk)).success = false →
      getLogsAux vendor (fuel + 1) lrk =
        ⟨[nextCursor lrk], Outcome.fail (vendor (nextCursor lrk)).msg⟩) ∧
    (∀ m, (getLogsAux vendor fuel lrk).outcome = Outcome.fail m →
      ∃ c ∈ (getLogsAux vendor fuel lrk).requests,
        (vendor c).success = false ∧ (vendor c).msg = m) := by
  constructor
  · intro h
    simp [getLogsAux, h]
  · exact getLogsAux_fail_source vendor fuel lrk

/-- Witness for C4: a vendor that reports failure makes the fetch abort at
once with that vendor's message, after a single request and with no
events. -/
theorem fetch_fail_semantics_witness :
    getLogsAux failVendor 3 none = ⟨[none], Outcome.fail "token invalid"⟩ := by
  have h := (fetch_fail_semantics failVendor none 2).1 (by decide)
  exact h.trans (by decide)

/-- C10: when a page reports `has_more` with a missing or empty
`last_row_key`, the next request carries no cursor parameter and its
params equal those of the initial request; in general the cursor parameter
is present exactly when the returned key is a non-empty string. -/
theorem fetch_empty_cursor_resends_initial (vendor : Option String → Page) (fuel : Nat)
    (hs : (vendor none).success = true)
    (hm : (vendor none).has_more = true)
    (hk : (vendor none).last_row_key = none ∨ (vendor none).last_row_key = some "") :
    ((get_logs vendor (fuel + 2)).requests.take 2 = [none, none] ∧
      (∀ (midnight : Nat → Nat → Nat → Int) (codes : List String)
        (s e : PyTimeVal),
        mkParams midnight codes s e (vendor none).last_row_key =
          mkParams midnight codes s e none)) ∧
    (∀ (k : Option String) (s : String),
      nextCursor k = some s ↔ k = some s ∧ s ≠ "") := by
  have hnc : nextCursor (vendor none).last_row_key = none := by
    rcases hk with hk | hk <;> simp [nextCursor, hk]
  refine ⟨⟨?_, ?_⟩, ?_⟩
  · obtain ⟨rest, hrest⟩ :=
      getLogsAux_requests_head vendor fuel (vendor none).last_row_key
    have : get_logs vendor (fuel + 2) =
        ⟨nextCursor none ::
            (getLogsAux vendor (fuel + 1) (vendor none).last_row_key).requests,
          match (getLogsAux vendor (fuel + 1) (vendor none).last_row_key).outcome with
          | Outcome.ok evs => Outcome.ok ((vendor none).events ++ evs)
          | o => o⟩ := by
      simp [get_logs, getLogsAux, nextCursor, hs, hm]
    rw [this]
    simp [hrest, hnc, nextCursor_none]
  · intro midnight codes s e
    have hnc' : nextCursor (vendor none).last_row_key = nextCursor none := by
      rw [hnc, nextCursor_none]
    simp only [mkParams, hnc']
  · intro k s
    cases k with
    | none =>
      constructor
      · intro h
        exact absurd (nextCursor_none.symm.trans h) (by simp)
      · rintro ⟨h, _⟩
        exact absurd h (by simp)
    | some t =>
      by_cases ht : t = ""
      · subst ht
        constructor
        · intro h
          exact absurd h (by simp [nextCursor])
        · rintro ⟨h1, h2⟩
          exact absurd (Option.some.inj h1).symm h2
      · have hsome : nextCursor (some t) = some t := by simp [nextCursor, ht]
        rw [hsome]
        constructor
        · intro h
          have hts : t = s := Option.some.inj h
          subst hts
          exact ⟨rfl, ht⟩
        · intro h
          exact h.1

/-- Witness for C10: a vendor answering `has_more` with an empty
`last_row_key` string. -/
theorem fetch_empty_cursor_resends_initial_witness :
    (get_logs emptyCursorVendor 4).requests.take 2 = [none, none] ∧
    mkParams (fun _ _ _ => 0) ["temp"] (PyTimeVal.datetime 10)
        (PyTimeVal.datetime 20) (emptyCursorVendor none).last_row_key =
      mkParams (fun _ _ _ => 0) ["temp"] (PyTimeVal.datetime 10)
        (PyTimeVal.datetime 20) none := by
  have h := fetch_empty_cursor_resends_initial emptyCursorVendor 2
    (by decide) (by decide) (Or.inr (by decide))
  exact ⟨h.1.1, h.1.2 (fun _ _ _ => 0) ["temp"] (PyTimeVal.datetime 10)
    (PyTimeVal.datetime 20)⟩

/-- Integer coercion fails whenever one value fails to parse. -/
theorem coerceInts_none (values : List String) (v : String) (hv : v ∈ values)
    (hnone : pyInt v = none) :
    coerceInts values = none := by
  induction values with
  | nil => cases hv
  | cons a rest ih =>
    rcases List.mem_cons.mp hv with rfl | hv'
    · simp [coerceInts, hnone]
    · rcases ha : pyInt a with _ | n
      · simp [coerceInts, ha]
      · simp [coerceInts, ha, ih hv']

/-- A successful integer coercion is the pointwise parse of each value. -/
theorem coerceInts_some (values : List String) :
    ∀ out, coerceInts values = some out →
      out = values.map (fun v => TypedValue.int ((pyInt v).getD 0)) := by
  induction values with
  | nil =>
    intro out h
    simp only [coerceInts, Option.some.injEq] at h
    simp [← h]
  | cons a rest ih =>
    intro out h
    rcases ha : pyInt a with _ | n
    · simp [coerceInts, ha] at h
    · rcases hrest : coerceInts rest with _ | out'
      · simp [coerceInts, ha, hrest] at h
      · simp only [coerceInts, ha, hrest, Option.some.injEq] at h
        simp [← h, ih out' hrest, ha]

/-- C2: if any value is exactly the string "true" or "false" the whole
series is coerced to booleans via `v == "true"`; otherwise every value is
parsed as an integer, the coercion failing (ValueError) exactly when some
value does not parse. -/
theorem coercion_policy (values : List String) :
    ((∃ v ∈ values, v = "true" ∨ v = "false") →
      coerceValues values =
        some (values.map (fun v => TypedValue.bool (v == "true")))) ∧
    ((∀ v ∈ values, v ≠ "true" ∧ v ≠ "false") →
      coerceValues values = coerceInts values ∧
      ((∃ v ∈ values, pyInt v = none) → coerceValues values = none) ∧
      (∀ out, coerceValues values = some out →
        out = values.map (fun v => TypedValue.int ((pyInt v).getD 0)))) := by
  constructor
  · intro h
    have hany : values.any (fun v => v == "true" || v == "false") = true := by
      rw [List.any_eq_true]
      obtain ⟨v, hv, hcase⟩ := h
      refine ⟨v, hv, ?_⟩
      rcases hcase with h' | h' <;> simp [h']
    simp [coerceValues, hany]
  · intro h
    have hany : values.any (fun v => v == "true" || v == "false") = false := by
      rw [List.any_eq_false]
      intro v hv
      have hne := h v hv
      simp [hne.1, hne.2]
    have heq : coerceValues values = coerceInts values := by
      simp [coerceValues, hany]
    refine ⟨heq, ?_, ?_⟩
    · rintro ⟨v, hv, hnone⟩
      rw [heq]
      exact coerceInts_none values v hv hnone
    · intro out hout
      rw [heq] at hout
      exact coerceInts_some values out hout

/-- Witness for C2 at the spec scenarios: integer coercion of
["23", "25"] and boolean coercion of ["true", "false"]. -/
theorem coercion_policy_witness :
    coerceValues ["true", "false"] =
      some [TypedValue.bool true, TypedValue.bool false] ∧
    coerceValues ["23", "25"] = some [TypedValue.int 23, TypedValue.int 25] := by
  constructor
  · have h := (coercion_policy ["true", "false"]).1 ⟨"true", by simp, Or.inl rfl⟩
    exact h.trans (by decide)
  · have h := ((coercion_policy ["23", "25"]).2 (by decide)).1
    exact h.trans (by decide)

/-- C3 counterexample: values mixing the boolean-string "true" with the
non-boolean "23" are not rejected — the whole series is silently coerced
to booleans and "23" becomes `false`. -/
theorem mixed_values_not_rejected :
    coerceValues ["true", "23"] =
      some [TypedValue.bool true, TypedValue.bool false] := by
  decide

/-- C3 amended: every coerced series is homogeneously typed (all boolean
or all integer), but a series mixing boolean-strings with other values is
not rejected: any occurrence of "true"/"false" makes every value coerce to
the boolean `v == "true"`. -/
theorem coerced_series_homogeneous (values : List String) (out : List TypedValue)
    (h : coerceValues values = some out) :
    ((∀ t ∈ out, ∃ b, t = TypedValue.bool b) ∨
      (∀ t ∈ out, ∃ n, t = TypedValue.int n)) ∧
    ((∃ v ∈ values, v = "true" ∨ v = "false") →
      out = values.map (fun v => TypedValue.bool (v == "true"))) := by
  by_cases hany : values.any (fun v => v == "true" || v == "false") = true
  · have hout : out = values.map (fun v => TypedValue.bool (v == "true")) := by
      have := h
      simp only [coerceValues, hany, if_true, Option.some.injEq] at this
      exact this.symm
    constructor
    · left
      intro t ht
      rw [hout] at ht
      obtain ⟨v, _, rfl⟩ := List.mem_map.mp ht
      exact ⟨v == "true", rfl⟩
    · intro _
      exact hout
  · have hany' : values.any (fun v => v == "true" || v == "false") = false := by
      simpa using hany
    have heq : coerceValues values = coerceInts values := by
      simp [coerceValues, hany']
    have hout := coerceInts_some values out (heq ▸ h)
    constructor
    · right
      intro t ht
      rw [hout] at ht
      obtain ⟨v, _, rfl⟩ := List.mem_map.mp ht
      exact ⟨(pyInt v).getD 0, rfl⟩
    · rintro ⟨v, hv, hcase⟩
      rw [List.any_eq_false] at hany'
      have := hany' v hv
      rcases hcase with rfl | rfl <;> simp at this

/-- Witness for C3's amended statement at the mixed input
["true", "23"]. -/
theorem coerced_series_homogeneous_witness :
    ([TypedValue.bool true, TypedValue.bool false] : List TypedValue) =
      (["true", "23"].map (fun v => TypedValue.bool (v == "true"))) := by
  exact (coerced_series_homogeneous ["true", "23"]
      [TypedValue.bool true, TypedValue.bool false] (by decide)).2
    ⟨"true", by simp, Or.inl rfl⟩

/-- Key membership after a Python dict assignment `y[k] = v`. -/
theorem mem_updateAssoc_keys (y : List (String × List TypedValue)) (k c : String)
    (v : List TypedValue) :
    c ∈ (updateAssoc y k v).map Prod.fst ↔ c ∈ y.map Prod.fst ∨ c = k := by
  unfold updateAssoc
  by_cases hk : y.any (fun p => p.1 == k) = true
  · simp only [hk, if_true]
    have hkeys : (y.map (fun p => if p.1 == k then (k, v) else p)).map Prod.fst
        = y.map Prod.fst := by
      rw [List.map_map]
      apply List.map_congr_left
      intro p _
      by_cases hpk : (p.1 == k) = true
      · simp only [Function.comp, hpk, if_true]
        exact (eq_of_beq hpk).symm
      · simp [Function.comp, hpk]
    rw [hkeys]
    have hkmem : k ∈ y.map Prod.fst := by
      rw [List.any_eq_true] at hk
      obtain ⟨p, hp, hpk⟩ := hk
      exact List.mem_map.mpr ⟨p, hp, eq_of_beq hpk⟩
    constructor
    · exact Or.inl
    · rintro (h | rfl)
      · exact h
      · exact hkmem
  · simp only [hk, if_false, Bool.false_eq_true]
    rw [List.map_append]
    simp

/-- Key membership in the series dict: a code is a key of the final state
exactly when it was already one, or some status carries it, it is not
deny-listed and some event matches it. -/
theorem buildSeriesAux_keys (res : List Event) :
    ∀ (statuses : List Status) (st st' : SeriesState),
      buildSeriesAux res statuses st = some st' →
      ∀ c, (c ∈ st'.y.map Prod.fst ↔
        c ∈ st.y.map Prod.fst ∨
          ∃ s ∈ statuses, s.code = c ∧ c ∉ codesToSkip ∧ ∃ e ∈ res, e.code = c) := by
  intro statuses
  induction statuses with
  | nil =>
    intro st st' h c
    simp only [buildSeriesAux, Option.some.injEq] at h
    subst h
    simp
  | cons status rest ih =>
    intro st st' h c
    by_cases hskip : status.code ∈ codesToSkip
    · rw [buildSeriesAux, if_pos hskip] at h
      rw [ih st st' h c]
      constructor
      · rintro (h1 | ⟨s, hs, rfl, hns, he⟩)
        · exact Or.inl h1
        · exact Or.inr ⟨s, List.mem_cons_of_mem _ hs, rfl, hns, he⟩
      · rintro (h1 | ⟨s, hs, rfl, hns, he⟩)
        · exact Or.inl h1
        · rcases List.mem_cons.mp hs with rfl | hs'
          · exact absurd hskip hns
          · exact Or.inr ⟨s, hs', rfl, hns, he⟩
    · by_cases hpts : (res.filter (fun point => point.code == status.code)).isEmpty = true
      · rw [buildSeriesAux, if_neg hskip, if_pos hpts] at h
        have hno : ∀ e ∈ res, e.code ≠ status.code := by
          intro e he hcode
          rw [List.isEmpty_iff, List.filter_eq_nil_iff] at hpts
          exact absurd (by simpa using hcode) (hpts e he)
        rw [ih st st' h c]
        constructor
        · rintro (h1 | ⟨s, hs, rfl, hns, he⟩)
          · exact Or.inl h1
          · exact Or.inr ⟨s, List.mem_cons_of_mem _ hs, rfl, hns, he⟩
        · rintro (h1 | ⟨s, hs, rfl, hns, he⟩)
          · exact Or.inl h1
          · rcases List.mem_cons.mp hs with rfl | hs'
            · obtain ⟨e, he, hcode⟩ := he
              exact absurd hcode (hno e he)
            · exact Or.inr ⟨s, hs', rfl, hns, he⟩
      · rw [buildSeriesAux, if_neg hskip, if_neg (by simpa using hpts)] at h
        rcases hcv : coerceValues ((res.filter
            (fun point => point.code == status.code)).map
            (fun point => point.value)) with _ | values
        · rw [hcv] at h
          cases h
        · rw [hcv] at h
          have hmatch : ∃ e ∈ res, e.code = status.code := by
            rcases hres : res.filter (fun point => point.code == status.code) with
              _ | ⟨e, tl⟩
            · rw [hres] at hpts
              simp at hpts
            · have he : e ∈ res.filter (fun point => point.code == status.code) := by
                rw [hres]
                exact List.mem_cons_self e tl
              have := List.mem_filter.mp he
              exact ⟨e, this.1, by simpa using this.2⟩
          rw [ih _ st' h c]
          simp only [mem_updateAssoc_keys]
          constructor
          · rintro ((h1 | rfl) | ⟨s, hs, rfl, hns, he⟩)
            · exact Or.inl h1
            · exact Or.inr ⟨status, List.mem_cons_self _ _, rfl, hskip, hmatch⟩
            · exact Or.inr ⟨s, List.mem_cons_of_mem _ hs, rfl, hns, he⟩
          · rintro (h1 | ⟨s, hs, rfl, hns, he⟩)
            · exact Or.inl (Or.inl h1)
            · rcases List.mem_cons.mp hs with rfl | hs'
              · exact Or.inl (Or.inr rfl)
              · exact Or.inr ⟨s, hs', rfl, hns, he⟩

/-- C6: a code of the device's status list appears as a key of the built
series mapping precisely when it is not deny-listed and at least one event
matches it; deny-listed codes and codes with no matching events are simply
omitted. -/
theorem series_keys_iff (res : List Event) (statuses : List Status)
    (st : SeriesState) (h : buildSeries res statuses = some st) (c : String)
    (hc : ∃ s ∈ statuses, s.code = c) :
    c ∈ st.y.map Prod.fst ↔ (c ∉ codesToSkip ∧ ∃ e ∈ res, e.code = c) := by
  have hkeys := buildSeriesAux_keys res statuses ⟨[], none⟩ st h c
  simp only [List.map_nil, List.not_mem_nil, false_or] at hkeys
  rw [hkeys]
  constructor
  · rintro ⟨s, _, rfl, hns, he⟩
    exact ⟨hns, he⟩
  · rintro ⟨hns, he⟩
    obtain ⟨s, hs, rfl⟩ := hc
    exact ⟨s, hs, rfl, hns, he⟩

/-- Witness for C6: a kept code with a matching event appears as a key;
the deny-listed scenario (an event list containing only `switch_1`)
produces the empty mapping. -/
theorem series_keys_iff_witness :
    "temp" ∈ ([("temp", [TypedValue.int 23])] :
        List (String × List TypedValue)).map Prod.fst ∧
    buildSeries [⟨"switch_1", 0, "1"⟩] [⟨"switch_1", "1"⟩] =
      some ⟨[], none⟩ := by
  constructor
  · exact (series_keys_iff [⟨"temp", 1, "23"⟩] [⟨"temp", "t"⟩]
      ⟨[("temp", [TypedValue.int 23])], some [toPerth 1]⟩ (by decide) "temp"
      ⟨⟨"temp", "t"⟩, by simp, rfl⟩).mpr
      ⟨by decide, ⟨"temp", 1, "23"⟩, by simp, rfl⟩
  · decide

/-- C7 (code evaluated at the failing input): with two charted codes whose
events have different timestamps, the loop's single `index` variable ends
as the LAST code's Perth-converted timestamps, so the series of code "a"
is not paired with its own timestamps — the per-code aligned index the
spec promises does not survive the loop. -/
theorem series_index_overwritten :
    buildSeries [⟨"a", 1, "1"⟩, ⟨"b", 2, "2"⟩] [⟨"a", "1"⟩, ⟨"b", "2"⟩] =
      some ⟨[("a", [TypedValue.int 1]), ("b", [TypedValue.int 2])],
        some [toPerth 2]⟩ ∧
    ¬ (some [toPerth 2] =
        some ((([⟨"a", 1, "1"⟩, ⟨"b", 2, "2"⟩] : List Event).filter
          (fun p => p.code == "a")).map (fun p => toPerth p.event_time))) := by
  constructor
  · decide
  · decide

/-- The device loop keeps exactly the devices with a non-empty status
list: their names key the output data and their ids receive a fetch, in
order. -/
theorem processDevices_spec (fetch : String → List String → List Event) :
    ∀ devices : List Device,
      (processDevices fetch devices).1.map Prod.fst =
        (devices.filter (fun d => !d.status.isEmpty)).map Device.name ∧
      (processDevices fetch devices).2 =
        (devices.filter (fun d => !d.status.isEmpty)).map Device.id := by
  intro devices
  induction devices with
  | nil => exact ⟨rfl, rfl⟩
  | cons device rest ih =>
    by_cases hd : device.status.isEmpty = true
    · rw [processDevices, if_pos hd]
      constructor
      · rw [ih.1, List.filter_cons]
        simp [hd]
      · rw [ih.2, List.filter_cons]
        simp [hd]
    · rw [processDevices, if_neg hd]
      constructor
      · rw [List.map_cons, ih.1, List.filter_cons]
        simp [hd]
      · rw [ih.2, List.filter_cons]
        simp [hd]

/-- C8: a device with an empty status list is skipped entirely — no fetch
is issued for its id and no entry appears under its name (assuming no
other, non-empty, device shares that name or id). -/
theorem empty_status_device_skipped (fetch : String → List String → List Event)
    (devices : List Device) (d : Device) (hd : d ∈ devices)
    (hempty : d.status = [])
    (hname : ∀ d' ∈ devices, d'.name = d.name → d'.status = [])
    (hid : ∀ d' ∈ devices, d'.id = d.id → d'.status = []) :
    d.name ∉ (processDevices fetch devices).1.map Prod.fst ∧
    d.id ∉ (processDevices fetch devices).2 := by
  have hspec := processDevices_spec fetch devices
  constructor
  · rw [hspec.1]
    intro hmem
    obtain ⟨d', hd', hdname⟩ := List.mem_map.mp hmem
    have hd'mem := List.mem_filter.mp hd'
    have : d'.status = [] := hname d' hd'mem.1 hdname
    simp [this] at hd'mem
  · rw [hspec.2]
    intro hmem
    obtain ⟨d', hd', hdid⟩ := List.mem_map.mp hmem
    have hd'mem := List.mem_filter.mp hd'
    have : d'.status = [] := hid d' hd'mem.1 hdid
    simp [this] at hd'mem

/-- Witness for C8: with one empty-status device and one normal device,
the empty one gets no fetch and no data entry. -/
theorem empty_status_device_skipped_witness :
    "lamp" ∉ (processDevices (fun _ _ => [])
      [⟨"id0", "lamp", "p", "m", []⟩,
        ⟨"id1", "fan", "p", "m", [⟨"temp", "1"⟩]⟩]).1.map Prod.fst ∧
    "id0" ∉ (processDevices (fun _ _ => [])
      [⟨"id0", "lamp", "p", "m", []⟩,
        ⟨"id1", "fan", "p", "m", [⟨"temp", "1"⟩]⟩]).2 := by
  exact empty_status_device_skipped (fun _ _ => [])
    [⟨"id0", "lamp", "p", "m", []⟩, ⟨"id1", "fan", "p", "m", [⟨"temp", "1"⟩]⟩]
    ⟨"id0", "lamp", "p", "m", []⟩ (by simp) rfl (by decide) (by decide)

/-- C9: the request encodes the code list as one comma-joined string and
both times as epoch milliseconds: a datetime of epoch seconds `s` becomes
`s * 1000`, a date goes through its midnight datetime, and any other value
fails the encoding (`NotImplementedError`). -/
theorem request_encoding (midnight : Nat → Nat → Nat → Int) (codes : List String)
    (lrk : Option String) :
    (∀ s : Int, to_api midnight (PyTimeVal.datetime s) = some (s * 1000)) ∧
    (∀ y m d : Nat, to_api midnight (PyTimeVal.date y m d) =
      to_api midnight (PyTimeVal.datetime (midnight y m d))) ∧
    to_api midnight PyTimeVal.other = none ∧
    (∀ s e : Int,
      mkParams midnight codes (PyTimeVal.datetime s) (PyTimeVal.datetime e) lrk =
        some ⟨String.intercalate "," codes, s * 1000, e * 1000, nextCursor lrk⟩) ∧
    (∀ t : PyTimeVal,
      mkParams midnight codes PyTimeVal.other t lrk = none ∧
      mkParams midnight codes t PyTimeVal.other lrk = none) := by
  refine ⟨fun s => rfl, fun y m d => rfl, rfl, fun s e => rfl, fun t => ⟨rfl, ?_⟩⟩
  cases t <;> rfl

end Tick
